import Mathlib

/-!
Shallow embedding of the key-value storage module `kvslib/KVS.c` (a
hash-chained key/value table with reference-counted entries, deferred
removal, and a single-slot lookup cache), together with proofs about the
spec's claims for it.

Modelling conventions:

* C scalar types (`cardinal`, `kvs_key_t`, `word_t`) are modelled as `Nat`;
  no claim exercises 32-bit wrap-around of counters or keys.
* Pointers (`kvs_data_t`, `void *`) are modelled as `Nat` addresses with
  `0` playing the role of `NULL`.  The bytes of memory that a data pointer
  refers to are modelled by an explicit function `mem : Nat → Nat` giving
  the byte stored at each address.
* A possibly-NULL `kvs_table_t` argument is `Option Table`.
* `ALLOCATE` may fail; every operation that allocates takes one `Bool`
  per `ALLOCATE` call site telling whether that allocation succeeds.
* The single-slot cache `last_retrieved_entry` is a pointer to an entry in
  C.  It is modelled by the cached entry's key: whenever the cache is set,
  it names a live, correctly-bucketed entry whose key is unique in the
  table, so the pointed-to entry and the entry found by a chain walk for
  that key coincide.  For the same reason the C idiom of mutating an entry
  in place through a found pointer is modelled by rewriting the entries
  that carry that key (`updateEntry`).
* Reading through an uninitialized pointer (the `new_entry->value` slip in
  `_kvs_retrieve_copy`) is modelled by an explicit `junk : Nat → Nat`
  parameter: the bytes that happen to sit at the indeterminate address.
-/

namespace KVS

/-- Status codes of `kvs_status_t` in `KVS.h`. -/
inductive KvsStatus where
  | success
  | invalidTable
  | invalidKey
  | invalidData
  | invalidSize
  | keyNotUnique
  | allocationFailed
  | invalidEntry
  | entryNotFound
  | entryPendingRemoval
  | sizeOfEntryUnknown
deriving DecidableEq, Repr

/-- The payload of an entry.  `owned` is a by-value entry: the entry owns a
freshly allocated buffer holding the listed bytes (what
`_kvs_new_entry_with_copy` copied).  `aliased` is a by-reference entry: the
entry stores the caller's pointer itself (`_kvs_new_entry_with_ref`). -/
inductive Val where
  | owned (bytes : List Nat)
  | aliased (ptr : Nat)
deriving DecidableEq, Repr

/-- One `struct _kvs_entry_s`.  The `next` chain pointer is modelled by the
position of the entry in its bucket's list. -/
structure Entry where
  key : Nat
  value : Val
  size : Nat
  ref_count : Nat
  null_terminated : Bool
  marked_for_removal : Bool
deriving DecidableEq, Repr

/-- One `kvs_table_s`.  `bucket` is the flexible array of chain heads, each
chain given front-to-back; `last_retrieved_entry` is the single-slot lookup
cache, modelled by the cached entry's key (see the module docstring). -/
structure Table where
  last_retrieved_entry : Option Nat
  entry_count : Nat
  bucket_count : Nat
  bucket : List (List Entry)
deriving DecidableEq, Repr

/-- `KVS_DEFAULT_TABLE_SIZE` from `KVS.h`. -/
def KVS_DEFAULT_TABLE_SIZE : Nat := 20011

/-- `KVS_MAX_STRING_SIZE` from `KVS.h` (64 KBytes). -/
def KVS_MAX_STRING_SIZE : Nat := 64 * 1024

/-- The chain walk `while ((this_entry->key != key) && (this_entry->next !=
NULL)) ...` followed by the final key test: the first entry of the chain
whose key matches, if any. -/
def chainFind (chain : List Entry) (key : Nat) : Option Entry :=
  chain.find? (fun e => e.key == key)

/-- All entries linked into some bucket chain of the table, in bucket order. -/
def allEntries (t : Table) : List Entry :=
  t.bucket.flatMap id

/-- The chain walk of the bucket `key % bucket_count`, as performed by
`_kvs_find_entry`, `kvs_store_value`, `kvs_store_reference` and
`kvs_remove_entry`. -/
def tableLookup (t : Table) (key : Nat) : Option Entry :=
  chainFind (t.bucket.getD (key % t.bucket_count) []) key

/-- In-place mutation of the entry found for `key`, as done in C through the
pointer returned by the find: every linked entry carrying that key is
rewritten (in a well-formed table there is exactly one). -/
def updateEntry (t : Table) (key : Nat) (f : Entry → Entry) : Table :=
  { t with bucket :=
      t.bucket.map (fun c => c.map (fun e => if e.key == key then f e else e)) }

/-- `_kvs_find_entry`.  Returns the entry found, the table after the lookup
(the cache now names the found entry) and the status.  The C fast path that
returns the cached pointer when the cached key matches yields the same entry
as the chain walk, because the cache only ever names a live, correctly
bucketed, uniquely keyed entry; on a hit the cache write below is a no-op,
on a miss the cache is only written when the walk found the entry, exactly
as in C. -/
def kvs_find_entry (t : Table) (key : Nat) : Option Entry × Table × KvsStatus :=
  match tableLookup t key with
  | some e => (some e, { t with last_retrieved_entry := some key }, .success)
  | none => (none, t, .entryNotFound)

/-- `kvs_new_table`.  `allocOk` tells whether the single `ALLOCATE` of the
table base succeeds. -/
def kvs_new_table (size : Nat) (allocOk : Bool) : Option Table × KvsStatus :=
  let bucket_count := if size = 0 then KVS_DEFAULT_TABLE_SIZE else size
  if allocOk = false then (none, .allocationFailed)
  else
    (some { last_retrieved_entry := none
            entry_count := 0
            bucket_count := bucket_count
            bucket := List.replicate bucket_count [] }, .success)

/-- Byte `i` of the little-endian machine representation of the value `p`. -/
def ptrByte (p i : Nat) : Nat := p / 256 ^ i % 256

/-- The scan loop of `_kvs_calc_null_terminated_data_size`: starting from
`index`, return the first index holding a zero byte; a non-zero byte at an
index that has reached `KVS_MAX_STRING_SIZE` aborts the scan with 0.  The
fuel argument only bounds the recursion; `KVS_MAX_STRING_SIZE + 1` steps
always suffice. -/
def scanLoop (f : Nat → Nat) : Nat → Nat → Nat
  | 0, _ => 0
  | fuel + 1, index =>
    if f index ≠ 0 then
      if index < KVS_MAX_STRING_SIZE then scanLoop f fuel (index + 1) else 0
    else index

/-- `_kvs_calc_null_terminated_data_size`.  The C function declares
`octet_t *_data = (octet_t *) &data;` and scans `_data[index]`: it walks the
bytes of the pointer variable itself, not the referenced data, so it is a
function of the address alone, modelled by the little-endian bytes of the
address value. -/
def kvs_calc_null_terminated_data_size (data : Nat) : Nat :=
  scanLoop (fun i => ptrByte data i) (KVS_MAX_STRING_SIZE + 1) 0

/-- The size derivation described by the spec for null-terminated payloads:
scan the payload bytes stored at address `value` in memory `mem` for the
terminating zero byte, with the same bound and the same failure value as the
loop in the source.  This definition follows the spec's words and exists to
be compared against `kvs_calc_null_terminated_data_size`. -/
def claimed_null_terminated_size (mem : Nat → Nat) (value : Nat) : Nat :=
  scanLoop (fun i => mem (value + i)) (KVS_MAX_STRING_SIZE + 1) 0

/-- The byte copy loop `while (index <= size)` of `_kvs_new_entry_with_copy`
and `_kvs_retrieve_copy`: it copies indices `0 .. size` inclusive, i.e.
`size + 1` bytes, from the byte source `src`. -/
def copyBytes (src : Nat → Nat) (size : Nat) : List Nat :=
  (List.range (size + 1)).map src

/-- `_kvs_new_entry_with_copy`.  `allocEntry` and `allocData` tell whether
the two `ALLOCATE` calls succeed; when the data allocation fails the entry
allocation is rolled back (`DEALLOCATE(new_entry)`). -/
def kvs_new_entry_with_copy (key value : Nat) (mem : Nat → Nat) (size : Nat)
    (null_terminated : Bool) (allocEntry allocData : Bool) :
    Option Entry × KvsStatus :=
  if allocEntry = false then (none, .allocationFailed)
  else if allocData = false then (none, .allocationFailed)
  else
    (some { key := key
            value := .owned (copyBytes (fun i => mem (value + i)) size)
            size := size
            ref_count := 1
            null_terminated := null_terminated
            marked_for_removal := false }, .success)

/-- `_kvs_new_entry_with_ref`: stores the caller's pointer itself. -/
def kvs_new_entry_with_ref (key value : Nat) (size : Nat)
    (null_terminated : Bool) (allocEntry : Bool) : Option Entry × KvsStatus :=
  if allocEntry = false then (none, .allocationFailed)
  else
    (some { key := key
            value := .aliased value
            size := size
            ref_count := 1
            null_terminated := null_terminated
            marked_for_removal := false }, .success)

/-- `kvs_store_value`.  `value` is the data pointer (0 is NULL), `mem` the
byte contents of memory.  Returns the table after the call and the status. -/
def kvs_store_value (t? : Option Table) (key value : Nat) (mem : Nat → Nat)
    (size : Nat) (null_terminated : Bool) (allocEntry allocData : Bool) :
    Option Table × KvsStatus :=
  match t? with
  | none => (none, .invalidTable)
  | some t =>
    if key = 0 then (some t, .invalidKey)
    else if value = 0 then (some t, .invalidData)
    else if size = 0 ∧ null_terminated = false then (some t, .invalidSize)
    else
      let size' := if size = 0 then kvs_calc_null_terminated_data_size value
                   else size
      if size' = 0 then (some t, .invalidSize)
      else
        let index := key % t.bucket_count
        let chain := t.bucket.getD index []
        match chainFind chain key with
        | some _ => (some t, .keyNotUnique)
        | none =>
          match kvs_new_entry_with_copy key value mem size' null_terminated
              allocEntry allocData with
          | (none, st) => (some t, st)
          | (some e, _) =>
            (some { t with bucket := t.bucket.set index (chain ++ [e])
                           entry_count := t.entry_count + 1 }, .success)

/-- `kvs_store_reference`. -/
def kvs_store_reference (t? : Option Table) (key value : Nat) (size : Nat)
    (null_terminated : Bool) (allocEntry : Bool) : Option Table × KvsStatus :=
  match t? with
  | none => (none, .invalidTable)
  | some t =>
    if key = 0 then (some t, .invalidKey)
    else if value = 0 then (some t, .invalidData)
    else if size = 0 ∧ null_terminated = false then (some t, .invalidSize)
    else
      let size' := if size = 0 ∧ null_terminated = true then
                     kvs_calc_null_terminated_data_size value
                   else size
      if size' = 0 then (some t, .invalidSize)
      else
        let index := key % t.bucket_count
        let chain := t.bucket.getD index []
        match chainFind chain key with
        | some _ => (some t, .keyNotUnique)
        | none =>
          match kvs_new_entry_with_ref key value size' null_terminated
              allocEntry with
          | (none, st) => (some t, st)
          | (some e, _) =>
            (some { t with bucket := t.bucket.set index (chain ++ [e])
                           entry_count := t.entry_count + 1 }, .success)

/-- `kvs_entry_exists`: found and not pending removal. -/
def kvs_entry_exists (t? : Option Table) (key : Nat) :
    Bool × Option Table × KvsStatus :=
  match t? with
  | none => (false, none, .invalidTable)
  | some t =>
    match kvs_find_entry t key with
    | (none, t', st) => (false, some t', st)
    | (some e, t', st) =>
      if e.marked_for_removal then (false, some t', .entryPendingRemoval)
      else (true, some t', st)

/-- `_kvs_retrieve_copy`.  The C function copies from `new_entry->value`
where the local `kvs_entry_s *new_entry` is never assigned: the source of
the copy is whatever bytes sit behind the indeterminate pointer, modelled by
`junk`; the entry's own stored bytes are not read at all.  `allocOk` tells
whether the `ALLOCATE` of the fresh buffer succeeds. -/
def kvs_retrieve_copy (entry : Entry) (junk : Nat → Nat) (allocOk : Bool) :
    Option (List Nat) × KvsStatus :=
  if allocOk = false then (none, .allocationFailed)
  else (some (copyBytes junk entry.size), .success)

/-- Data returned by `kvs_get_entry`: a freshly allocated buffer when
retrieving by copy, the entry's stored value otherwise. -/
inductive KvsData where
  | buf (bytes : List Nat)
  | ptr (v : Val)
deriving DecidableEq, Repr

/-- `kvs_get_entry`.  Result, the `size` and `null_terminated` out-parameters
(`none` when the call does not write them), the table after the call, and
the status. -/
def kvs_get_entry (t? : Option Table) (copy : Bool) (key : Nat)
    (junk : Nat → Nat) (allocOk : Bool) :
    Option KvsData × Option Nat × Option Bool × Option Table × KvsStatus :=
  match t? with
  | none => (none, none, none, none, .invalidTable)
  | some t =>
    match kvs_find_entry t key with
    | (none, t', _) => (none, none, none, some t', .entryNotFound)
    | (some e, t', _) =>
      if e.marked_for_removal then
        (none, none, none, some t', .entryPendingRemoval)
      else if copy = true then
        if e.size = 0 then (none, none, none, some t', .sizeOfEntryUnknown)
        else
          match kvs_retrieve_copy e junk allocOk with
          | (some bytes, st) =>
            (some (.buf bytes), some e.size, some e.null_terminated, some t', st)
          | (none, st) =>
            (none, some e.size, some e.null_terminated, some t', st)
      else
        (some (.ptr e.value), some e.size, some e.null_terminated,
         some (updateEntry t' key
           (fun x => { x with ref_count := x.ref_count + 1 })), .success)

/-- `kvs_value_for_key`: retrieval by copy; never touches `ref_count`. -/
def kvs_value_for_key (t? : Option Table) (key : Nat) (junk : Nat → Nat)
    (allocOk : Bool) : Option (List Nat) × Option Table × KvsStatus :=
  match t? with
  | none => (none, none, .invalidTable)
  | some t =>
    match kvs_find_entry t key with
    | (none, t', st) => (none, some t', st)
    | (some e, t', _) =>
      if e.marked_for_removal then (none, some t', .entryPendingRemoval)
      else if e.size = 0 then (none, some t', .sizeOfEntryUnknown)
      else
        match kvs_retrieve_copy e junk allocOk with
        | (r, st) => (r, some t', st)

/-- `kvs_reference_for_key`: returns the entry's stored value and increments
the entry's reference count (`this_entry->ref_count++` in the source). -/
def kvs_reference_for_key (t? : Option Table) (key : Nat) :
    Option Val × Option Table × KvsStatus :=
  match t? with
  | none => (none, none, .invalidTable)
  | some t =>
    match kvs_find_entry t key with
    | (none, t', st) => (none, some t', st)
    | (some e, t', _) =>
      if e.marked_for_removal then (none, some t', .entryPendingRemoval)
      else
        (some e.value,
         some (updateEntry t' key
           (fun x => { x with ref_count := x.ref_count + 1 })), .success)

/-- `kvs_size_for_key`: the found entry's size, pending removal or not;
0 when not found.  The status is the one left behind by the find. -/
def kvs_size_for_key (t? : Option Table) (key : Nat) :
    Nat × Option Table × KvsStatus :=
  match t? with
  | none => (0, none, .invalidTable)
  | some t =>
    match kvs_find_entry t key with
    | (none, t', st) => (0, some t', st)
    | (some e, t', st) => (e.size, some t', st)

/-- `kvs_data_for_key_is_null_terminated`. -/
def kvs_data_for_key_is_null_terminated (t? : Option Table) (key : Nat) :
    Bool × Option Table × KvsStatus :=
  match t? with
  | none => (false, none, .invalidTable)
  | some t =>
    match kvs_find_entry t key with
    | (none, t', st) => (false, some t', st)
    | (some e, t', st) => (e.null_terminated, some t', st)

/-- `kvs_reference_count_for_key`. -/
def kvs_reference_count_for_key (t? : Option Table) (key : Nat) :
    Nat × Option Table × KvsStatus :=
  match t? with
  | none => (0, none, .invalidTable)
  | some t =>
    match kvs_find_entry t key with
    | (none, t', st) => (0, some t', st)
    | (some e, t', st) => (e.ref_count, some t', st)

/-- `kvs_remove_entry`.  Walks the chain directly (no cache consultation).
When the found entry's count is at most 1 it is physically removed: the
cache is cleared if it named this entry, the entry is unlinked and disposed
(`_kvs_dispose_entry` reports success here, since entries and their values
are never NULL in this model) and `entry_count` is decremented.  Otherwise
the entry is only marked for removal. -/
def kvs_remove_entry (t? : Option Table) (key : Nat) :
    Option Table × KvsStatus :=
  match t? with
  | none => (none, .invalidTable)
  | some t =>
    if key = 0 then (some t, .invalidKey)
    else
      let index := key % t.bucket_count
      let chain := t.bucket.getD index []
      match chainFind chain key with
      | none => (some t, .entryNotFound)
      | some e =>
        if e.ref_count ≤ 1 then
          (some { t with
                    last_retrieved_entry :=
                      if t.last_retrieved_entry = some key then none
                      else t.last_retrieved_entry
                    bucket := t.bucket.set index
                      (chain.eraseP (fun x => x.key == key))
                    entry_count := t.entry_count - 1 }, .success)
        else
          (some (updateEntry t key
            (fun x => { x with marked_for_removal := true })), .success)

/-- `kvs_release_entry`.  Decrements only when the count exceeds 1; when the
decrement lands on 1 and the entry is marked for removal the deferred
removal is completed by calling `kvs_remove_entry`. -/
def kvs_release_entry (t? : Option Table) (key : Nat) :
    Option Table × KvsStatus :=
  match t? with
  | none => (none, .invalidTable)
  | some t =>
    match kvs_find_entry t key with
    | (none, t', st) => (some t', st)
    | (some e, t', st) =>
      if e.ref_count > 1 then
        let t2 := updateEntry t' key
          (fun x => { x with ref_count := x.ref_count - 1 })
        if e.ref_count - 1 = 1 ∧ e.marked_for_removal = true then
          kvs_remove_entry (some t2) key
        else (some t2, st)
      else (some t', st)

/-- `kvs_dispose_table`.  The deallocation loop runs `index` from 0 to
`entry_count - 1` (not `bucket_count - 1`) and disposes every entry on the
chain of `bucket[index]`.  The function returns the list of entries it
deallocates, chain by chain, plus the status; the table base itself is
always deallocated afterwards. -/
def kvs_dispose_table (t? : Option Table) : List Entry × KvsStatus :=
  match t? with
  | none => ([], .invalidTable)
  | some t =>
    ((List.range t.entry_count).flatMap (fun i => t.bucket.getD i []),
     .success)

/-- `kvs_number_of_buckets`. -/
def kvs_number_of_buckets (t? : Option Table) : Nat :=
  match t? with
  | none => 0
  | some t => t.bucket_count

/-- `kvs_number_of_entries`. -/
def kvs_number_of_entries (t? : Option Table) : Nat :=
  match t? with
  | none => 0
  | some t => t.entry_count

end KVS

namespace KVS

/-- Well-formedness of a table state, as maintained by the module: the
bucket array has the advertised length and is nonempty, `entry_count`
counts the linked entries, keys are nonzero, reference counts are at least
one, keys are unique within each chain, every entry sits in the chain of
its own hash index, and the cache only ever names a linked entry. -/
def WF (t : Table) : Prop :=
  t.bucket.length = t.bucket_count ∧
  0 < t.bucket_count ∧
  t.entry_count = (allEntries t).length ∧
  (∀ e ∈ allEntries t, e.key ≠ 0 ∧ 1 ≤ e.ref_count) ∧
  (∀ c ∈ t.bucket, c.Pairwise (fun a b => a.key ≠ b.key)) ∧
  (∀ i < t.bucket.length, ∀ e ∈ t.bucket.getD i [], e.key % t.bucket_count = i) ∧
  (∀ ck, t.last_retrieved_entry = some ck → ∃ e ∈ allEntries t, e.key = ck)

theorem chainFind_eq_some {chain : List Entry} {key : Nat} {e : Entry}
    (h : chainFind chain key = some e) : e ∈ chain ∧ e.key = key := by
  refine ⟨List.mem_of_find?_eq_some h, ?_⟩
  have := List.find?_some h
  simpa using this

theorem chainFind_eq_none {chain : List Entry} {key : Nat}
    (h : chainFind chain key = none) : ∀ e ∈ chain, e.key ≠ key := by
  intro e he
  have := List.find?_eq_none.mp h e he
  simpa using this

theorem chainFind_isSome {chain : List Entry} {key : Nat} {e : Entry}
    (he : e ∈ chain) (hk : e.key = key) : ∃ x, chainFind chain key = some x := by
  have : (chainFind chain key).isSome = true := by
    rw [chainFind, List.find?_isSome]
    exact ⟨e, he, by simp [hk]⟩
  exact Option.isSome_iff_exists.mp this

theorem mem_allEntries {t : Table} {e : Entry} :
    e ∈ allEntries t ↔ ∃ c ∈ t.bucket, e ∈ c := by
  simp [allEntries, List.mem_flatMap]

theorem getD_mem_bucket {t : Table} {i : Nat} (h : i < t.bucket.length) :
    t.bucket.getD i [] ∈ t.bucket := by
  rw [List.getD_eq_getElem?_getD, List.getElem?_eq_getElem h]
  exact List.getElem_mem h

theorem tableLookup_spec {t : Table} {key : Nat} {e : Entry}
    (hlen : t.bucket.length = t.bucket_count) (hpos : 0 < t.bucket_count)
    (h : tableLookup t key = some e) : e ∈ allEntries t ∧ e.key = key := by
  obtain ⟨hm, hk⟩ := chainFind_eq_some h
  refine ⟨mem_allEntries.mpr ⟨_, ?_, hm⟩, hk⟩
  exact getD_mem_bucket (by rw [hlen]; exact Nat.mod_lt _ hpos)

/-- With nonzero keys everywhere, no chain walk for key 0 can succeed. -/
theorem tableLookup_zero {t : Table} (hwf : WF t) : tableLookup t 0 = none := by
  obtain ⟨hlen, hpos, -, hkeys, -⟩ := hwf
  cases hfind : tableLookup t 0 with
  | none => rfl
  | some e =>
    obtain ⟨hm, hk⟩ := tableLookup_spec hlen hpos hfind
    exact absurd hk (hkeys e hm).1

theorem key_unique {t : Table} (hwf : WF t) {x y : Entry}
    (hx : x ∈ allEntries t) (hy : y ∈ allEntries t) (hk : x.key = y.key) :
    x = y := by
  obtain ⟨hlen, hpos, -, -, hpw, hplaced, -⟩ := hwf
  obtain ⟨cx, hcx, hxc⟩ := mem_allEntries.mp hx
  obtain ⟨cy, hcy, hyc⟩ := mem_allEntries.mp hy
  obtain ⟨i, hi, hci⟩ := List.getElem_of_mem hcx
  obtain ⟨j, hj, hcj⟩ := List.getElem_of_mem hcy
  have hgi : t.bucket.getD i [] = cx := by
    rw [List.getD_eq_getElem?_getD, List.getElem?_eq_getElem hi, hci]; rfl
  have hgj : t.bucket.getD j [] = cy := by
    rw [List.getD_eq_getElem?_getD, List.getElem?_eq_getElem hj, hcj]; rfl
  have hxi : x.key % t.bucket_count = i := hplaced i hi x (hgi ▸ hxc)
  have hyj : y.key % t.bucket_count = j := hplaced j hj y (hgj ▸ hyc)
  have hij : i = j := by rw [← hxi, ← hyj, hk]
  subst hij
  have hcc : cx = cy := by rw [← hci, ← hcj]
  subst hcc
  by_contra hne
  have hsymm : Symmetric (fun a b : Entry => a.key ≠ b.key) := by
    intro a b hab
    exact fun h => hab h.symm
  exact (hpw cx hcx).forall hsymm hxc hyc hne hk

/-- Completeness of the chain walk: a linked entry is found by a lookup for
its key. -/
theorem tableLookup_of_mem {t : Table} (hwf : WF t) {x : Entry} {key : Nat}
    (hx : x ∈ allEntries t) (hk : x.key = key) : tableLookup t key = some x := by
  have hwf' := hwf
  obtain ⟨hlen, hpos, -, -, -, hplaced, -⟩ := hwf'
  obtain ⟨c, hc, hxc⟩ := mem_allEntries.mp hx
  obtain ⟨i, hi, hci⟩ := List.getElem_of_mem hc
  have hgi : t.bucket.getD i [] = c := by
    rw [List.getD_eq_getElem?_getD, List.getElem?_eq_getElem hi, hci]; rfl
  have hxi : x.key % t.bucket_count = i := hplaced i hi x (hgi ▸ hxc)
  have hidx : key % t.bucket_count = i := by rw [← hk, hxi]
  obtain ⟨y, hy⟩ := chainFind_isSome hxc hk
  have hlook : tableLookup t key = some y := by
    rw [tableLookup, hidx, hgi, hy]
  obtain ⟨hym, hyk⟩ := chainFind_eq_some hy
  have : y = x := key_unique hwf
    (mem_allEntries.mpr ⟨c, hc, hym⟩) hx (by rw [hyk, hk])
  rwa [this] at hlook

end KVS

namespace KVS

theorem getD_map_chains (g : Entry → Entry) (l : List (List Entry)) (i : Nat) :
    (l.map (fun c => c.map g)).getD i [] = (l.getD i []).map g := by
  rw [List.getD_eq_getElem?_getD, List.getD_eq_getElem?_getD, List.getElem?_map]
  cases l[i]? with
  | none => rfl
  | some c => rfl

theorem allEntries_updateEntry (t : Table) (key : Nat) (f : Entry → Entry) :
    allEntries (updateEntry t key f)
      = (allEntries t).map (fun e => if e.key == key then f e else e) := by
  rw [updateEntry, allEntries, allEntries, List.flatMap_map, List.map_flatMap]
  rfl

theorem tableLookup_updateEntry (t : Table) (k key : Nat) (f : Entry → Entry)
    (hf : ∀ x, (f x).key = x.key) :
    tableLookup (updateEntry t k f) key
      = (tableLookup t key).map (fun e => if e.key == k then f e else e) := by
  have hbc : (updateEntry t k f).bucket_count = t.bucket_count := rfl
  rw [tableLookup, tableLookup, hbc]
  have hb : (updateEntry t k f).bucket
      = t.bucket.map (fun c => c.map (fun e => if e.key == k then f e else e)) := rfl
  rw [hb, getD_map_chains, chainFind, chainFind, List.find?_map]
  have hp : ((fun e : Entry => e.key == key) ∘
      (fun e => if e.key == k then f e else e)) = (fun e : Entry => e.key == key) := by
    funext x
    by_cases h : x.key = k
    · simp [h, hf]
    · simp [h]
  rw [hp]

theorem length_flatMap_set (l : List (List Entry)) (i : Nat) (c : List Entry)
    (h : i < l.length) :
    ((l.set i c).flatMap id).length + (l.getD i []).length
      = (l.flatMap id).length + c.length := by
  induction l generalizing i with
  | nil => simp at h
  | cons x xs ih =>
    cases i with
    | zero => simp [List.set, Nat.add_assoc, Nat.add_comm, Nat.add_left_comm]
    | succ j =>
      have hj : j < xs.length := by simpa using h
      have := ih j hj
      simp only [List.set, List.flatMap_cons, List.length_append, List.getD_cons_succ,
        id_eq]
      omega

theorem mem_flatMap_set {l : List (List Entry)} {i : Nat} {c : List Entry}
    {x : Entry} (h : x ∈ (l.set i c).flatMap id) :
    x ∈ c ∨ x ∈ l.flatMap id := by
  obtain ⟨c', hc', hx⟩ := List.mem_flatMap.mp h
  rcases List.mem_or_eq_of_mem_set hc' with hmem | rfl
  · exact Or.inr (List.mem_flatMap.mpr ⟨c', hmem, hx⟩)
  · exact Or.inl hx

theorem mem_eraseP_of_mem {l : List Entry} {p : Entry → Bool} {x : Entry}
    (hx : x ∈ l) (hpx : p x = false) : x ∈ l.eraseP p := by
  induction l with
  | nil => cases hx
  | cons y ys ih =>
    by_cases hy : p y
    · rw [List.eraseP_cons_of_pos hy]
      rcases List.mem_cons.mp hx with rfl | hmem
      · rw [hy] at hpx; cases hpx
      · exact hmem
    · rw [List.eraseP_cons_of_neg (by simpa using hy)]
      rcases List.mem_cons.mp hx with rfl | hmem
      · exact List.mem_cons_self _ _
      · exact List.mem_cons_of_mem _ (ih hmem)

theorem chainFind_eraseP_of_unique {chain : List Entry} {key : Nat}
    (hpw : chain.Pairwise (fun a b => a.key ≠ b.key)) :
    chainFind (chain.eraseP (fun x => x.key == key)) key = none := by
  induction chain with
  | nil => rfl
  | cons y ys ih =>
    rw [List.pairwise_cons] at hpw
    by_cases hy : y.key = key
    · rw [List.eraseP_cons_of_pos (by simp [hy])]
      rw [chainFind, List.find?_eq_none]
      intro x hx
      have : y.key ≠ x.key := hpw.1 x hx
      simp only [beq_iff_eq]
      rw [hy] at this
      exact fun h => this h.symm
    · rw [List.eraseP_cons_of_neg (by simp [hy])]
      rw [chainFind, List.find?_cons_of_neg _ (by simp [hy])]
      exact ih hpw.2

end KVS

namespace KVS

theorem getD_set_self {l : List (List Entry)} {i : Nat} {c : List Entry}
    (h : i < l.length) : (l.set i c).getD i [] = c := by
  rw [List.getD_eq_getElem?_getD, List.getElem?_set_self h]
  rfl

theorem getD_set_ne {l : List (List Entry)} {i j : Nat} {c : List Entry}
    (h : i ≠ j) : (l.set i c).getD j [] = l.getD j [] := by
  rw [List.getD_eq_getElem?_getD, List.getElem?_set_ne h, List.getD_eq_getElem?_getD]

theorem subset_flatMap_set {l : List (List Entry)} {i : Nat} {c : List Entry}
    (hsub : l.getD i [] ⊆ c) {x : Entry} (hx : x ∈ l.flatMap id) :
    x ∈ (l.set i c).flatMap id := by
  obtain ⟨c0, hc0, hxc⟩ := List.mem_flatMap.mp hx
  obtain ⟨j, hj, hcj⟩ := List.getElem_of_mem hc0
  by_cases hij : i = j
  · subst hij
    have hg : l.getD i [] = c0 := by
      rw [List.getD_eq_getElem?_getD, List.getElem?_eq_getElem hj, hcj]; rfl
    have hxc' : x ∈ c := hsub (hg ▸ hxc)
    refine List.mem_flatMap.mpr ⟨c, ?_, hxc'⟩
    have hset : (l.set i c)[i]? = some c := List.getElem?_set_self hj
    exact List.getElem?_mem hset
  · refine List.mem_flatMap.mpr ⟨c0, ?_, hxc⟩
    have : (l.set i c)[j]? = some c0 := by
      rw [List.getElem?_set_ne hij, List.getElem?_eq_getElem hj, hcj]
    exact List.getElem?_mem this

/-- A table state whose cache has just been pointed at a linked entry stays
well formed. -/
theorem WF_setCache {t : Table} {e : Entry} {k : Nat} (hwf : WF t)
    (he : e ∈ allEntries t) (hk : e.key = k) :
    WF { t with last_retrieved_entry := some k } := by
  obtain ⟨hlen, hpos, hcount, hkeys, hpw, hplaced, -⟩ := hwf
  refine ⟨hlen, hpos, hcount, hkeys, hpw, hplaced, ?_⟩
  intro ck hck
  injection hck with hck
  exact ⟨e, he, by rw [hk, hck]⟩

/-- Rewriting the entries that carry one key preserves well-formedness as
long as the rewrite keeps the key and never drops a reference count that
belongs to that key below one. -/
theorem WF_updateEntry {t : Table} {k : Nat} {f : Entry → Entry} (hwf : WF t)
    (hkey : ∀ x, (f x).key = x.key)
    (hrc : ∀ x ∈ allEntries t, x.key = k → 1 ≤ (f x).ref_count) :
    WF (updateEntry t k f) := by
  obtain ⟨hlen, hpos, hcount, hkeys, hpw, hplaced, hcache⟩ := hwf
  set g : Entry → Entry := fun e => if e.key == k then f e else e with hg
  have hgkey : ∀ x, (g x).key = x.key := by
    intro x
    by_cases h : x.key = k <;> simp [hg, h, hkey]
  refine ⟨?_, hpos, ?_, ?_, ?_, ?_, ?_⟩
  · simpa [updateEntry] using hlen
  · rw [allEntries_updateEntry, List.length_map]
    exact hcount
  · intro e he
    rw [allEntries_updateEntry] at he
    obtain ⟨x, hx, rfl⟩ := List.mem_map.mp he
    by_cases h : x.key = k
    · simp only [h, beq_self_eq_true, if_true, hkey]
      exact ⟨h ▸ (hkeys x hx).1, hrc x hx h⟩
    · simp only [beq_iff_eq, h, if_false]
      exact hkeys x hx
  · intro c hc
    rw [updateEntry] at hc
    obtain ⟨c0, hc0, rfl⟩ := List.mem_map.mp hc
    rw [List.pairwise_map]
    refine (hpw c0 hc0).imp ?_
    intro a b hab
    rw [hgkey, hgkey]
    exact hab
  · intro i hi e he
    have hi' : i < t.bucket.length := by
      simpa [updateEntry] using hi
    have hb : (updateEntry t k f).bucket.getD i []
        = (t.bucket.getD i []).map g := by
      rw [updateEntry]
      exact getD_map_chains g t.bucket i
    rw [hb] at he
    obtain ⟨x, hx, rfl⟩ := List.mem_map.mp he
    rw [hgkey]
    exact hplaced i hi' x hx
  · intro ck hck
    obtain ⟨e, he, hek⟩ := hcache ck hck
    refine ⟨g e, ?_, by rw [hgkey]; exact hek⟩
    rw [allEntries_updateEntry]
    exact List.mem_map.mpr ⟨e, he, rfl⟩

theorem allEntries_replicate_nil (cache : Option Nat) (cnt bc n : Nat) :
    allEntries { last_retrieved_entry := cache, entry_count := cnt,
                 bucket_count := bc, bucket := List.replicate n [] } = [] := by
  rw [allEntries, List.eq_nil_iff_forall_not_mem]
  intro x hx
  obtain ⟨c, hc, hxc⟩ := List.mem_flatMap.mp hx
  rw [List.eq_of_mem_replicate hc] at hxc
  cases hxc

theorem getD_replicate_nil {n i : Nat} :
    (List.replicate n ([] : List Entry)).getD i [] = [] := by
  rw [List.getD_eq_getElem?_getD, List.getElem?_replicate]
  by_cases h : i < n <;> simp [h]

theorem WF_kvs_new_table {sz : Nat} {a : Bool} {t : Table} {st : KvsStatus}
    (h : kvs_new_table sz a = (some t, st)) : WF t := by
  cases a with
  | false => simp [kvs_new_table] at h
  | true =>
    simp only [kvs_new_table, Bool.true_eq_false, if_false] at h
    injection h with h1 h2
    injection h1 with h1
    subst h1
    refine ⟨by simp, ?_, ?_, ?_, ?_, ?_, ?_⟩
    · by_cases hsz : sz = 0 <;> simp [hsz, KVS_DEFAULT_TABLE_SIZE]
      omega
    · rw [allEntries_replicate_nil]
      rfl
    · intro e he
      rw [allEntries_replicate_nil] at he
      cases he
    · intro c hc
      rw [List.eq_of_mem_replicate hc]
      exact List.Pairwise.nil
    · intro i hi e he
      rw [getD_replicate_nil] at he
      cases he
    · intro ck hck
      cases hck

end KVS

namespace KVS

theorem mem_flatMap_set_of {l : List (List Entry)} {i : Nat} {c : List Entry}
    {x : Entry} (hx : x ∈ l.flatMap id) (hsur : x ∈ l.getD i [] → x ∈ c) :
    x ∈ (l.set i c).flatMap id := by
  obtain ⟨c0, hc0, hxc⟩ := List.mem_flatMap.mp hx
  obtain ⟨j, hj, hcj⟩ := List.getElem_of_mem hc0
  by_cases hij : i = j
  · subst hij
    have hg : l.getD i [] = c0 := by
      rw [List.getD_eq_getElem?_getD, List.getElem?_eq_getElem hj, hcj]; rfl
    have hxc' : x ∈ c := hsur (hg ▸ hxc)
    refine List.mem_flatMap.mpr ⟨c, ?_, hxc'⟩
    exact List.getElem?_mem (List.getElem?_set_self (a := c) hj)
  · refine List.mem_flatMap.mpr ⟨c0, ?_, hxc⟩
    have hset : (l.set i c)[j]? = some c0 := by
      rw [List.getElem?_set_ne hij, List.getElem?_eq_getElem hj, hcj]
    exact List.getElem?_mem hset

/-- Appending a fresh entry (nonzero key equal to its hash bucket, positive
count, key not yet in the chain) to the tail of its chain preserves
well-formedness; this is the insertion shape shared by both store
operations. -/
theorem WF_insert {t : Table} {key : Nat} {e : Entry} (hwf : WF t)
    (hk0 : key ≠ 0) (hek : e.key = key) (herc : 1 ≤ e.ref_count)
    (hnew : chainFind (t.bucket.getD (key % t.bucket_count) []) key = none) :
    WF { t with
           bucket := t.bucket.set (key % t.bucket_count)
             ((t.bucket.getD (key % t.bucket_count) []) ++ [e]),
           entry_count := t.entry_count + 1 } := by
  obtain ⟨hlen, hpos, hcount, hkeys, hpw, hplaced, hcache⟩ := hwf
  have hilt : key % t.bucket_count < t.bucket.length := by
    rw [hlen]; exact Nat.mod_lt _ hpos
  have hchain_mem : t.bucket.getD (key % t.bucket_count) [] ∈ t.bucket :=
    getD_mem_bucket hilt
  refine ⟨?_, hpos, ?_, ?_, ?_, ?_, ?_⟩
  · simpa using hlen
  · have hcnt := length_flatMap_set t.bucket (key % t.bucket_count)
      ((t.bucket.getD (key % t.bucket_count) []) ++ [e]) hilt
    simp only [List.length_append, List.length_cons, List.length_nil] at hcnt
    rw [allEntries] at hcount
    simp only [allEntries]
    omega
  · intro x hx
    rcases mem_flatMap_set hx with hxc | hxo
    · rcases List.mem_append.mp hxc with hxc | hxe
      · exact hkeys x (List.mem_flatMap.mpr ⟨_, hchain_mem, hxc⟩)
      · rcases List.mem_singleton.mp hxe with rfl
        exact ⟨hek ▸ hk0, herc⟩
    · exact hkeys x hxo
  · intro c hc
    rcases List.mem_or_eq_of_mem_set hc with hmem | rfl
    · exact hpw c hmem
    · rw [List.pairwise_append]
      refine ⟨hpw _ hchain_mem, List.pairwise_singleton _ _, ?_⟩
      intro a ha b hb
      rcases List.mem_singleton.mp hb with rfl
      rw [hek]
      exact chainFind_eq_none hnew a ha
  · intro i hi x hx
    have hi' : i < t.bucket.length := by simpa using hi
    by_cases hij : key % t.bucket_count = i
    · subst hij
      rw [getD_set_self hilt] at hx
      rcases List.mem_append.mp hx with hxc | hxe
      · exact hplaced _ hilt x hxc
      · rcases List.mem_singleton.mp hxe with rfl
        rw [hek]
    · rw [getD_set_ne hij] at hx
      exact hplaced i hi' x hx
  · intro ck hck
    obtain ⟨x, hxmem, hxk⟩ := hcache ck hck
    refine ⟨x, ?_, hxk⟩
    exact mem_flatMap_set_of hxmem (fun h => List.mem_append.mpr (Or.inl h))

end KVS

namespace KVS

theorem new_entry_with_copy_spec {k v : Nat} {mem : Nat → Nat} {sz : Nat}
    {nt : Bool} {aE aD : Bool} {e : Entry} {st : KvsStatus}
    (h : kvs_new_entry_with_copy k v mem sz nt aE aD = (some e, st)) :
    e = { key := k, value := .owned (copyBytes (fun i => mem (v + i)) sz),
          size := sz, ref_count := 1, null_terminated := nt,
          marked_for_removal := false } := by
  simp only [kvs_new_entry_with_copy] at h
  split at h
  · injection h with h1 h2; cases h1
  · split at h
    · injection h with h1 h2; cases h1
    · injection h with h1 h2
      injection h1 with h1
      exact h1.symm

theorem new_entry_with_ref_spec {k v : Nat} {sz : Nat} {nt : Bool}
    {aE : Bool} {e : Entry} {st : KvsStatus}
    (h : kvs_new_entry_with_ref k v sz nt aE = (some e, st)) :
    e = { key := k, value := .aliased v, size := sz, ref_count := 1,
          null_terminated := nt, marked_for_removal := false } := by
  simp only [kvs_new_entry_with_ref] at h
  split at h
  · injection h with h1 h2; cases h1
  · injection h with h1 h2
    injection h1 with h1
    exact h1.symm

theorem WF_store_value {t : Table} {k v : Nat} {mem : Nat → Nat} {sz : Nat}
    {nt : Bool} {aE aD : Bool} {t' : Table} {st : KvsStatus} (hwf : WF t)
    (h : kvs_store_value (some t) k v mem sz nt aE aD = (some t', st)) :
    WF t' := by
  simp only [kvs_store_value] at h
  by_cases hk0 : k = 0
  · rw [if_pos hk0] at h
    injection h with h1 h2
    injection h1 with h1
    exact h1 ▸ hwf
  · rw [if_neg hk0] at h
    repeat' split at h
    all_goals
      try { injection h with h1 h2; injection h1 with h1; exact h1 ▸ hwf }
    all_goals
      rename_i hnew xx e0 snd0 hmk
    all_goals
      injection h with h1 h2
    all_goals
      rw [new_entry_with_copy_spec hmk] at h1
    all_goals
      injection h1 with h1
    all_goals
      exact h1 ▸ WF_insert hwf hk0 rfl (le_refl 1) hnew

theorem WF_store_reference {t : Table} {k v : Nat} {sz : Nat}
    {nt : Bool} {aE : Bool} {t' : Table} {st : KvsStatus} (hwf : WF t)
    (h : kvs_store_reference (some t) k v sz nt aE = (some t', st)) :
    WF t' := by
  simp only [kvs_store_reference] at h
  by_cases hk0 : k = 0
  · rw [if_pos hk0] at h
    injection h with h1 h2
    injection h1 with h1
    exact h1 ▸ hwf
  · rw [if_neg hk0] at h
    repeat' split at h
    all_goals
      try { injection h with h1 h2; injection h1 with h1; exact h1 ▸ hwf }
    all_goals
      rename_i hnew xx e0 snd0 hmk
    all_goals
      injection h with h1 h2
    all_goals
      rw [new_entry_with_ref_spec hmk] at h1
    all_goals
      injection h1 with h1
    all_goals
      exact h1 ▸ WF_insert hwf hk0 rfl (le_refl 1) hnew

end KVS

namespace KVS

theorem find_entry_none {t : Table} {key : Nat} {t1 : Table} {st : KvsStatus}
    (h : kvs_find_entry t key = (none, t1, st)) :
    t1 = t ∧ tableLookup t key = none ∧ st = .entryNotFound := by
  rw [kvs_find_entry] at h
  cases hf : tableLookup t key with
  | none =>
    rw [hf] at h
    injection h with h1 h2
    injection h2 with h2 h3
    exact ⟨h2.symm, rfl, h3.symm⟩
  | some e =>
    rw [hf] at h
    injection h with h1
    cases h1

theorem find_entry_some {t : Table} {key : Nat} {e : Entry} {t1 : Table}
    {st : KvsStatus} (h : kvs_find_entry t key = (some e, t1, st)) :
    t1 = { t with last_retrieved_entry := some key } ∧
    tableLookup t key = some e ∧ st = .success := by
  rw [kvs_find_entry] at h
  cases hf : tableLookup t key with
  | none =>
    rw [hf] at h
    injection h with h1
    cases h1
  | some x =>
    rw [hf] at h
    injection h with h1 h2
    injection h1 with h1
    injection h2 with h2 h3
    exact ⟨h2.symm, by rw [h1], h3.symm⟩

/-- Physically unlinking the chain entry found for `key` (the removal shape
of `kvs_remove_entry`) preserves well-formedness. -/
theorem WF_erase {t : Table} {key : Nat} {e : Entry} (hwf : WF t)
    (hfind : chainFind (t.bucket.getD (key % t.bucket_count) []) key = some e) :
    WF { t with
           last_retrieved_entry :=
             if t.last_retrieved_entry = some key then none
             else t.last_retrieved_entry
           bucket := t.bucket.set (key % t.bucket_count)
             ((t.bucket.getD (key % t.bucket_count) []).eraseP
               (fun x => x.key == key))
           entry_count := t.entry_count - 1 } := by
  obtain ⟨hlen, hpos, hcount, hkeys, hpw, hplaced, hcache⟩ := hwf
  have hilt : key % t.bucket_count < t.bucket.length := by
    rw [hlen]; exact Nat.mod_lt _ hpos
  have hchain_mem : t.bucket.getD (key % t.bucket_count) [] ∈ t.bucket :=
    getD_mem_bucket hilt
  obtain ⟨hemem, hekey⟩ := chainFind_eq_some hfind
  have hsub : ∀ x ∈ (t.bucket.getD (key % t.bucket_count) []).eraseP
      (fun x => x.key == key), x ∈ t.bucket.getD (key % t.bucket_count) [] :=
    fun x hx => (List.eraseP_sublist _).subset hx
  refine ⟨?_, hpos, ?_, ?_, ?_, ?_, ?_⟩
  · simpa using hlen
  · have hcnt := length_flatMap_set t.bucket (key % t.bucket_count)
      ((t.bucket.getD (key % t.bucket_count) []).eraseP (fun x => x.key == key))
      hilt
    have herase : ((t.bucket.getD (key % t.bucket_count) []).eraseP
        (fun x => x.key == key)).length
        = (t.bucket.getD (key % t.bucket_count) []).length - 1 :=
      List.length_eraseP_of_mem hemem (by simp [hekey])
    have hchlen : 1 ≤ (t.bucket.getD (key % t.bucket_count) []).length :=
      List.length_pos.mpr (List.ne_nil_of_mem hemem)
    rw [allEntries] at hcount
    simp only [allEntries]
    omega
  · intro x hx
    rcases mem_flatMap_set hx with hxc | hxo
    · exact hkeys x (List.mem_flatMap.mpr ⟨_, hchain_mem, hsub x hxc⟩)
    · exact hkeys x hxo
  · intro c hc
    rcases List.mem_or_eq_of_mem_set hc with hmem | rfl
    · exact hpw c hmem
    · exact List.Pairwise.sublist (List.eraseP_sublist _) (hpw _ hchain_mem)
  · intro i hi x hx
    have hi' : i < t.bucket.length := by simpa using hi
    by_cases hij : key % t.bucket_count = i
    · subst hij
      rw [getD_set_self hilt] at hx
      exact hplaced _ hilt x (hsub x hx)
    · rw [getD_set_ne hij] at hx
      exact hplaced i hi' x hx
  · intro ck hck
    by_cases hcc : t.last_retrieved_entry = some key
    · rw [if_pos hcc] at hck
      cases hck
    · rw [if_neg hcc] at hck
      obtain ⟨x, hxmem, hxk⟩ := hcache ck hck
      have hckkey : ck ≠ key := by
        intro hckk
        rw [hckk] at hck
        exact hcc hck
      have hxkey : (x.key == key) = false := by
        simp only [beq_eq_false_iff_ne, ne_eq]
        rw [hxk]
        exact hckkey
      refine ⟨x, ?_, hxk⟩
      exact mem_flatMap_set_of hxmem (fun hmem => mem_eraseP_of_mem hmem hxkey)

theorem WF_remove {t : Table} {key : Nat} {t' : Table} {st : KvsStatus}
    (hwf : WF t) (h : kvs_remove_entry (some t) key = (some t', st)) : WF t' := by
  simp only [kvs_remove_entry] at h
  split at h
  · injection h with h1 h2
    injection h1 with h1
    exact h1 ▸ hwf
  · split at h
    · injection h with h1 h2
      injection h1 with h1
      exact h1 ▸ hwf
    · rename_i e hfind
      split at h
      · injection h with h1 h2
        injection h1 with h1
        exact h1 ▸ WF_erase hwf hfind
      · injection h with h1 h2
        injection h1 with h1
        refine h1 ▸ WF_updateEntry hwf (fun x => rfl) ?_
        intro x hx hk
        exact ((hwf.2.2.2.1) x hx).2

theorem WF_release {t : Table} {key : Nat} {t' : Table} {st : KvsStatus}
    (hwf : WF t) (h : kvs_release_entry (some t) key = (some t', st)) : WF t' := by
  simp only [kvs_release_entry] at h
  split at h
  · rename_i t1 st1 hfe
    obtain ⟨rfl, -, -⟩ := find_entry_none hfe
    injection h with h1 h2
    injection h1 with h1
    exact h1 ▸ hwf
  · rename_i e t1 st1 hfe
    obtain ⟨rfl, hlook, -⟩ := find_entry_some hfe
    obtain ⟨hemem, hekey⟩ :=
      tableLookup_spec hwf.1 hwf.2.1 hlook
    have hwf1 : WF { t with last_retrieved_entry := some key } :=
      WF_setCache hwf hemem hekey
    split at h
    · rename_i hrc
      have hwf2 : WF (updateEntry { t with last_retrieved_entry := some key }
          key (fun x => { x with ref_count := x.ref_count - 1 })) := by
        refine WF_updateEntry hwf1 (fun x => rfl) ?_
        intro x hx hk
        have hx' : x ∈ allEntries t := hx
        have hxe : x = e := key_unique hwf hx' hemem (by rw [hk, hekey])
        have hrc' : x.ref_count = e.ref_count := by rw [hxe]
        have hred : ({ x with ref_count := x.ref_count - 1 } : Entry).ref_count
            = x.ref_count - 1 := rfl
        omega
      split at h
      · exact WF_remove hwf2 h
      · injection h with h1 h2
        injection h1 with h1
        exact h1 ▸ hwf2
    · injection h with h1 h2
      injection h1 with h1
      exact h1 ▸ hwf1

end KVS

namespace KVS

/-- The table coming out of a lookup, with a freshly incremented reference
count on the found entry, is well formed (shape shared by `kvs_get_entry` in
reference mode and `kvs_reference_for_key`). -/
theorem WF_rcinc {t : Table} {key : Nat} {e : Entry} (hwf : WF t)
    (hfind : tableLookup t key = some e) :
    WF (updateEntry { t with last_retrieved_entry := some key } key
        (fun x => { x with ref_count := x.ref_count + 1 })) := by
  obtain ⟨hemem, hekey⟩ := tableLookup_spec hwf.1 hwf.2.1 hfind
  have hwf1 : WF { t with last_retrieved_entry := some key } :=
    WF_setCache hwf hemem hekey
  refine WF_updateEntry hwf1 (fun x => rfl) ?_
  intro x hx hk
  have hred : ({ x with ref_count := x.ref_count + 1 } : Entry).ref_count
      = x.ref_count + 1 := rfl
  omega

theorem WF_entry_exists {t : Table} {key : Nat} {t' : Table} (hwf : WF t)
    (h : (kvs_entry_exists (some t) key).2.1 = some t') : WF t' := by
  cases hf : tableLookup t key with
  | none =>
    simp only [kvs_entry_exists, kvs_find_entry, hf] at h
    injection h with h1
    exact h1 ▸ hwf
  | some e =>
    simp only [kvs_entry_exists, kvs_find_entry, hf] at h
    have hwf1 : WF { t with last_retrieved_entry := some key } := by
      obtain ⟨hemem, hekey⟩ := tableLookup_spec hwf.1 hwf.2.1 hf
      exact WF_setCache hwf hemem hekey
    by_cases hm : e.marked_for_removal = true
    · simp only [hm, if_true] at h
      injection h with h1
      exact h1 ▸ hwf1
    · simp only [hm, if_false] at h
      injection h with h1
      exact h1 ▸ hwf1

theorem WF_get_entry {t : Table} {copy : Bool} {key : Nat} {junk : Nat → Nat}
    {aOk : Bool} {t' : Table} (hwf : WF t)
    (h : (kvs_get_entry (some t) copy key junk aOk).2.2.2.1 = some t') :
    WF t' := by
  cases hf : tableLookup t key with
  | none =>
    simp only [kvs_get_entry, kvs_find_entry, hf] at h
    injection h with h1
    exact h1 ▸ hwf
  | some e =>
    simp only [kvs_get_entry, kvs_find_entry, hf] at h
    have hwf1 : WF { t with last_retrieved_entry := some key } := by
      obtain ⟨hemem, hekey⟩ := tableLookup_spec hwf.1 hwf.2.1 hf
      exact WF_setCache hwf hemem hekey
    have hwf2 : WF (updateEntry { t with last_retrieved_entry := some key } key
        (fun x => { x with ref_count := x.ref_count + 1 })) :=
      WF_rcinc hwf hf
    repeat' split at h
    all_goals
      try { injection h with h1; exact h1 ▸ hwf1 }
    all_goals
      injection h with h1
    all_goals
      exact h1 ▸ hwf2

theorem WF_value_for_key {t : Table} {key : Nat} {junk : Nat → Nat}
    {aOk : Bool} {t' : Table} (hwf : WF t)
    (h : (kvs_value_for_key (some t) key junk aOk).2.1 = some t') : WF t' := by
  cases hf : tableLookup t key with
  | none =>
    simp only [kvs_value_for_key, kvs_find_entry, hf] at h
    injection h with h1
    exact h1 ▸ hwf
  | some e =>
    simp only [kvs_value_for_key, kvs_find_entry, hf] at h
    have hwf1 : WF { t with last_retrieved_entry := some key } := by
      obtain ⟨hemem, hekey⟩ := tableLookup_spec hwf.1 hwf.2.1 hf
      exact WF_setCache hwf hemem hekey
    repeat' split at h
    all_goals
      injection h with h1
    all_goals
      exact h1 ▸ hwf1

theorem WF_reference_for_key {t : Table} {key : Nat} {t' : Table} (hwf : WF t)
    (h : (kvs_reference_for_key (some t) key).2.1 = some t') : WF t' := by
  cases hf : tableLookup t key with
  | none =>
    simp only [kvs_reference_for_key, kvs_find_entry, hf] at h
    injection h with h1
    exact h1 ▸ hwf
  | some e =>
    simp only [kvs_reference_for_key, kvs_find_entry, hf] at h
    have hwf1 : WF { t with last_retrieved_entry := some key } := by
      obtain ⟨hemem, hekey⟩ := tableLookup_spec hwf.1 hwf.2.1 hf
      exact WF_setCache hwf hemem hekey
    have hwf2 : WF (updateEntry { t with last_retrieved_entry := some key } key
        (fun x => { x with ref_count := x.ref_count + 1 })) :=
      WF_rcinc hwf hf
    split at h
    · injection h with h1
      exact h1 ▸ hwf1
    · injection h with h1
      exact h1 ▸ hwf2

theorem WF_size_for_key {t : Table} {key : Nat} {t' : Table} (hwf : WF t)
    (h : (kvs_size_for_key (some t) key).2.1 = some t') : WF t' := by
  cases hf : tableLookup t key with
  | none =>
    simp only [kvs_size_for_key, kvs_find_entry, hf] at h
    injection h with h1
    exact h1 ▸ hwf
  | some e =>
    simp only [kvs_size_for_key, kvs_find_entry, hf] at h
    injection h with h1
    obtain ⟨hemem, hekey⟩ := tableLookup_spec hwf.1 hwf.2.1 hf
    exact h1 ▸ WF_setCache hwf hemem hekey

theorem WF_null_terminated_for_key {t : Table} {key : Nat} {t' : Table}
    (hwf : WF t)
    (h : (kvs_data_for_key_is_null_terminated (some t) key).2.1 = some t') :
    WF t' := by
  cases hf : tableLookup t key with
  | none =>
    simp only [kvs_data_for_key_is_null_terminated, kvs_find_entry, hf] at h
    injection h with h1
    exact h1 ▸ hwf
  | some e =>
    simp only [kvs_data_for_key_is_null_terminated, kvs_find_entry, hf] at h
    injection h with h1
    obtain ⟨hemem, hekey⟩ := tableLookup_spec hwf.1 hwf.2.1 hf
    exact h1 ▸ WF_setCache hwf hemem hekey

theorem WF_reference_count_for_key {t : Table} {key : Nat} {t' : Table}
    (hwf : WF t)
    (h : (kvs_reference_count_for_key (some t) key).2.1 = some t') : WF t' := by
  cases hf : tableLookup t key with
  | none =>
    simp only [kvs_reference_count_for_key, kvs_find_entry, hf] at h
    injection h with h1
    exact h1 ▸ hwf
  | some e =>
    simp only [kvs_reference_count_for_key, kvs_find_entry, hf] at h
    injection h with h1
    obtain ⟨hemem, hekey⟩ := tableLookup_spec hwf.1 hwf.2.1 hf
    exact h1 ▸ WF_setCache hwf hemem hekey

/-- Table states reachable through the public operations of the module,
starting from `kvs_new_table`. -/
inductive Reachable : Table → Prop where
  | new_table (sz : Nat) (a : Bool) (t : Table) (st : KvsStatus) :
      kvs_new_table sz a = (some t, st) → Reachable t
  | store_value (t : Table) (k v : Nat) (mem : Nat → Nat) (sz : Nat)
      (nt aE aD : Bool) (t' : Table) (st : KvsStatus) : Reachable t →
      kvs_store_value (some t) k v mem sz nt aE aD = (some t', st) →
      Reachable t'
  | store_reference (t : Table) (k v : Nat) (sz : Nat) (nt aE : Bool)
      (t' : Table) (st : KvsStatus) : Reachable t →
      kvs_store_reference (some t) k v sz nt aE = (some t', st) → Reachable t'
  | entry_exists (t : Table) (k : Nat) (t' : Table) : Reachable t →
      (kvs_entry_exists (some t) k).2.1 = some t' → Reachable t'
  | get_entry (t : Table) (copy : Bool) (k : Nat) (junk : Nat → Nat)
      (aOk : Bool) (t' : Table) : Reachable t →
      (kvs_get_entry (some t) copy k junk aOk).2.2.2.1 = some t' → Reachable t'
  | value_for_key (t : Table) (k : Nat) (junk : Nat → Nat) (aOk : Bool)
      (t' : Table) : Reachable t →
      (kvs_value_for_key (some t) k junk aOk).2.1 = some t' → Reachable t'
  | reference_for_key (t : Table) (k : Nat) (t' : Table) : Reachable t →
      (kvs_reference_for_key (some t) k).2.1 = some t' → Reachable t'
  | size_for_key (t : Table) (k : Nat) (t' : Table) : Reachable t →
      (kvs_size_for_key (some t) k).2.1 = some t' → Reachable t'
  | null_terminated_for_key (t : Table) (k : Nat) (t' : Table) : Reachable t →
      (kvs_data_for_key_is_null_terminated (some t) k).2.1 = some t' →
      Reachable t'
  | reference_count_for_key (t : Table) (k : Nat) (t' : Table) : Reachable t →
      (kvs_reference_count_for_key (some t) k).2.1 = some t' → Reachable t'
  | release_entry (t : Table) (k : Nat) (t' : Table) (st : KvsStatus) :
      Reachable t → kvs_release_entry (some t) k = (some t', st) → Reachable t'
  | remove_entry (t : Table) (k : Nat) (t' : Table) (st : KvsStatus) :
      Reachable t → kvs_remove_entry (some t) k = (some t', st) → Reachable t'

/-- Every reachable table state is well formed. -/
theorem Reachable.wf {t : Table} (h : Reachable t) : WF t := by
  induction h with
  | new_table sz a t st h => exact WF_kvs_new_table h
  | store_value t k v mem sz nt aE aD t' st hr h ih => exact WF_store_value ih h
  | store_reference t k v sz nt aE t' st hr h ih =>
    exact WF_store_reference ih h
  | entry_exists t k t' hr h ih => exact WF_entry_exists ih h
  | get_entry t copy k junk aOk t' hr h ih => exact WF_get_entry ih h
  | value_for_key t k junk aOk t' hr h ih => exact WF_value_for_key ih h
  | reference_for_key t k t' hr h ih => exact WF_reference_for_key ih h
  | size_for_key t k t' hr h ih => exact WF_size_for_key ih h
  | null_terminated_for_key t k t' hr h ih =>
    exact WF_null_terminated_for_key ih h
  | reference_count_for_key t k t' hr h ih =>
    exact WF_reference_count_for_key ih h
  | release_entry t k t' st hr h ih => exact WF_release ih h
  | remove_entry t k t' st hr h ih => exact WF_remove ih h

end KVS

namespace KVS

/-- Byte memory holding one payload byte 65 at address 100, 0 elsewhere. -/
def memA : Nat → Nat := fun a => if a = 100 then 65 else 0

/-- Bytes sitting behind the indeterminate pointer read by the by-copy
retrieval: all zero. -/
def junkZero : Nat → Nat := fun _ => 0

/-- Fresh table with two buckets, as built by `kvs_new_table 2`. -/
def tableFresh2 : Table :=
  { last_retrieved_entry := none, entry_count := 0, bucket_count := 2,
    bucket := [[], []] }

/-- Entry produced by `kvs_store_value` for key 1 with the one-byte payload
at address 100 of `memA` (the copy loop stores bytes 0 and 1). -/
def entryA : Entry :=
  { key := 1, value := .owned [65, 0], size := 1, ref_count := 1,
    null_terminated := false, marked_for_removal := false }

/-- The table after storing `entryA` into `tableFresh2`. -/
def tableA : Table :=
  { last_retrieved_entry := none, entry_count := 1, bucket_count := 2,
    bucket := [[], [entryA]] }

/-- Byte memory holding a null-terminated one-byte payload at address 256. -/
def memB : Nat → Nat := fun a => if a = 256 then 65 else 0

theorem WF_tableA : WF tableA := by
  refine ⟨rfl, by decide, rfl, by decide, by decide, by decide, ?_⟩
  intro ck hck
  cases hck

theorem Reachable_tableFresh2 : Reachable tableFresh2 :=
  Reachable.new_table 2 true tableFresh2 .success rfl

theorem Reachable_tableA : Reachable tableA :=
  Reachable.store_value tableFresh2 1 100 memA 1 false true true tableA
    .success Reachable_tableFresh2 rfl

end KVS

namespace KVS

/-- C1.  The claim says that after a successful store, retrieval by copy
returns a buffer whose bytes equal the stored payload.  In the source,
`_kvs_retrieve_copy` copies from `new_entry->value` where the local
`new_entry` is never initialized, so the returned buffer holds the bytes
behind an indeterminate pointer, not the entry's value: storing the payload
byte 65 under key 1 puts `Val.owned [65, 0]` into the entry, yet
`kvs_value_for_key` returns the junk bytes `[0, 0]`. -/
theorem C1_retrieve_copy_reads_uninitialized :
    (kvs_store_value (some tableFresh2) 1 100 memA 1 false true true).1
      = some tableA ∧
    (tableLookup tableA 1).map Entry.value = some (Val.owned [65, 0]) ∧
    (kvs_value_for_key (some tableA) 1 junkZero true).1 = some [0, 0] ∧
    (kvs_value_for_key (some tableA) 1 junkZero true).1
      ≠ some (copyBytes (fun i => memA (100 + i)) 1) := by
  decide

end KVS

namespace KVS

/-- C2.  The claim says `kvs_dispose_table` deallocates every entry on every
bucket chain.  The deallocation loop in the source runs its bucket index
from 0 to `entry_count - 1` instead of `bucket_count - 1`, so with one entry
stored under key 1 in a two-bucket table (the entry hangs on the chain of
bucket 1, `entry_count` is 1) the loop only visits bucket 0 and deallocates
nothing, yet reports success. -/
theorem C2_dispose_table_misses_chains :
    (kvs_store_value (some tableFresh2) 1 100 memA 1 false true true).1
      = some tableA ∧
    entryA ∈ allEntries tableA ∧
    kvs_dispose_table (some tableA) = ([], .success) ∧
    entryA ∉ (kvs_dispose_table (some tableA)).1 := by
  decide

/-- C8.  The claim says the null-terminated size derivation scans the
payload bytes at `value`.  The source takes `&data` instead of `data`, so it
scans the bytes of the pointer variable itself: for a pointer of value 256
whose payload is the null-terminated string of the single byte 65, the
spec's scan yields size 1, but the code scans the little-endian bytes of the
number 256 (whose first byte is 0), yields 0, and both store operations
consequently fail with `KVS_STATUS_INVALID_SIZE` and add no entry — where
the claim says the entry's stored size is derived from the payload. -/
theorem C8_size_scan_reads_pointer_bytes :
    claimed_null_terminated_size memB 256 = 1 ∧
    kvs_calc_null_terminated_data_size 256 = 0 ∧
    kvs_store_value (some tableFresh2) 1 256 memB 0 true true true
      = (some tableFresh2, .invalidSize) ∧
    kvs_store_reference (some tableFresh2) 1 256 0 true true
      = (some tableFresh2, .invalidSize) := by
  decide

end KVS

namespace KVS

/-- Entry stored by reference (aliased pointer 100) under key 1. -/
def entryR : Entry :=
  { key := 1, value := .aliased 100, size := 5, ref_count := 1,
    null_terminated := false, marked_for_removal := false }

/-- Two-bucket table holding `entryR` alone, cache empty. -/
def tableR : Table :=
  { last_retrieved_entry := none, entry_count := 1, bucket_count := 2,
    bucket := [[], [entryR]] }

theorem WF_tableR : WF tableR := by
  refine ⟨rfl, by decide, rfl, by decide, by decide, by decide, ?_⟩
  intro ck hck
  cases hck

/-- C3 counterexample.  On a live entry of count 1, a successful
`kvs_reference_for_key` leaves the count at 2, not at its value before the
call: the source increments `this_entry->ref_count` on this path just like
the unified retrieval's reference mode does. -/
theorem C3_counterexample_reference_for_key_increments :
    (kvs_reference_count_for_key (some tableR) 1).1 = 1 ∧
    (kvs_reference_for_key (some tableR) 1).2.2 = .success ∧
    ¬ ((kvs_reference_count_for_key
          ((kvs_reference_for_key (some tableR) 1).2.1) 1).1
        = (kvs_reference_count_for_key (some tableR) 1).1) := by
  decide

/-- C3 as amended: both reference retrievals increment.  For every live
entry, a successful `kvs_reference_for_key` returns the entry's stored value
and leaves the table in exactly the state `kvs_get_entry` in reference mode
produces — with the entry's `ref_count` one higher than before the call. -/
theorem C3_amended_both_reference_paths_increment (t : Table) (key : Nat)
    (e : Entry) (junk : Nat → Nat) (aOk : Bool) (hwf : WF t)
    (hfind : tableLookup t key = some e) (hm : e.marked_for_removal = false) :
    (kvs_reference_for_key (some t) key).1 = some e.value ∧
    (kvs_reference_for_key (some t) key).2.1
      = (kvs_get_entry (some t) false key junk aOk).2.2.2.1 ∧
    (kvs_reference_count_for_key
        ((kvs_reference_for_key (some t) key).2.1) key).1
      = e.ref_count + 1 := by
  obtain ⟨hemem, hekey⟩ := tableLookup_spec hwf.1 hwf.2.1 hfind
  refine ⟨?_, ?_, ?_⟩
  · simp [kvs_reference_for_key, kvs_find_entry, hfind, hm]
  · simp [kvs_reference_for_key, kvs_get_entry, kvs_find_entry, hfind, hm]
  · have hl2 : tableLookup { t with last_retrieved_entry := some key } key
        = some e := hfind
    have hup := tableLookup_updateEntry
      { t with last_retrieved_entry := some key } key key
      (fun x => { x with ref_count := x.ref_count + 1 }) (fun x => rfl)
    rw [hl2] at hup
    simp only [Option.map_some', hekey, beq_self_eq_true, if_true] at hup
    simp [kvs_reference_for_key, kvs_find_entry, hfind, hm,
      kvs_reference_count_for_key, hup]

/-- C3 amended claim exercised at a concrete input: the reference entry
`entryR` of count 1 in `tableR`. -/
theorem C3_amended_witness :
    (kvs_reference_for_key (some tableR) 1).1 = some entryR.value ∧
    (kvs_reference_for_key (some tableR) 1).2.1
      = (kvs_get_entry (some tableR) false 1 junkZero true).2.2.2.1 ∧
    (kvs_reference_count_for_key
        ((kvs_reference_for_key (some tableR) 1).2.1) 1).1
      = entryR.ref_count + 1 :=
  C3_amended_both_reference_paths_increment tableR 1 entryR junkZero true
    WF_tableR rfl rfl

end KVS

namespace KVS

/-- C4.  Storing a fresh key by reference with a known nonzero size and then
retrieving it once by the reference-only convenience call returns exactly
the stored pointer (the entry's value is the alias `v`, no copy), and the
reference count reported for the key afterwards is 2. -/
theorem C4_store_reference_alias_and_count (sz k v N : Nat)
    (hk : k ≠ 0) (hv : v ≠ 0) (hN : N ≠ 0) :
    ∃ t0 t1,
      kvs_new_table sz true = (some t0, .success) ∧
      kvs_store_reference (some t0) k v N false true = (some t1, .success) ∧
      (kvs_reference_for_key (some t1) k).1 = some (Val.aliased v) ∧
      (kvs_reference_for_key (some t1) k).2.2 = .success ∧
      (kvs_reference_count_for_key
        ((kvs_reference_for_key (some t1) k).2.1) k).1 = 2 := by
  set B : Nat := if sz = 0 then KVS_DEFAULT_TABLE_SIZE else sz with hB
  have hBpos : 0 < B := by
    rw [hB]
    split
    · decide
    · omega
  set e0 : Entry := { key := k, value := .aliased v, size := N, ref_count := 1,
                      null_terminated := false, marked_for_removal := false }
    with he0
  set t0 : Table := { last_retrieved_entry := none, entry_count := 0,
                      bucket_count := B, bucket := List.replicate B [] }
    with ht0
  set t1 : Table := { last_retrieved_entry := none, entry_count := 1,
                      bucket_count := B,
                      bucket := (List.replicate B []).set (k % B) [e0] }
    with ht1
  have hmod : k % B < (List.replicate B ([] : List Entry)).length := by
    rw [List.length_replicate]
    exact Nat.mod_lt _ hBpos
  have hgetD : t1.bucket.getD (k % t1.bucket_count) [] = [e0] := by
    rw [ht1]
    exact getD_set_self hmod
  have hlook1 : tableLookup t1 k = some e0 := by
    rw [tableLookup, hgetD, chainFind]
    simp [he0]
  refine ⟨t0, t1, ?_, ?_, ?_, ?_, ?_⟩
  · simp [kvs_new_table, ht0, hB]
  · simp only [kvs_store_reference, hk, hv, hN, if_false, false_and, and_false,
      if_neg (by simp [hN] : ¬(N = 0 ∧ (false : Bool) = false)),
      if_neg (by simp : ¬(N = 0 ∧ (false : Bool) = true))]
    rw [getD_replicate_nil]
    simp [chainFind, kvs_new_entry_with_ref, ht1, he0]
  · simp [kvs_reference_for_key, kvs_find_entry, hlook1, he0]
  · simp [kvs_reference_for_key, kvs_find_entry, hlook1, he0]
  · have hl2 : tableLookup { t1 with last_retrieved_entry := some k } k
        = some e0 := hlook1
    have hup := tableLookup_updateEntry
      { t1 with last_retrieved_entry := some k } k k
      (fun x => { x with ref_count := x.ref_count + 1 }) (fun x => rfl)
    rw [hl2] at hup
    simp only [Option.map_some', he0, beq_self_eq_true, if_true] at hup
    simp [kvs_reference_for_key, kvs_find_entry, hlook1,
      kvs_reference_count_for_key, he0, hup]

end KVS

namespace KVS

/-- C4 exercised at the concrete input `sz = 2`, `k = 1`, `v = 100`,
`N = 5`. -/
theorem C4_witness :
    (1 : Nat) ≠ 0 ∧ (100 : Nat) ≠ 0 ∧ (5 : Nat) ≠ 0 ∧
    ∃ t0 t1,
      kvs_new_table 2 true = (some t0, .success) ∧
      kvs_store_reference (some t0) 1 100 5 false true = (some t1, .success) ∧
      (kvs_reference_for_key (some t1) 1).1 = some (Val.aliased 100) ∧
      (kvs_reference_for_key (some t1) 1).2.2 = .success ∧
      (kvs_reference_count_for_key
        ((kvs_reference_for_key (some t1) 1).2.1) 1).1 = 2 :=
  ⟨by decide, by decide, by decide,
   C4_store_reference_alias_and_count 2 1 100 5 (by decide) (by decide)
     (by decide)⟩

/-- C7.  When the target chain already holds an entry for the key — live or
pending removal — and the call would otherwise be valid (nonzero key,
non-NULL value, derivable nonzero size), both store operations return
`KVS_STATUS_KEY_NOT_UNIQUE` and leave the table exactly as it was: no new
entry, the existing entry untouched, `entry_count` unchanged. -/
theorem C7_duplicate_key_rejected (t : Table) (key v : Nat)
    (mem : Nat → Nat) (sz : Nat) (nt : Bool) (aE aD : Bool)
    (hk0 : key ≠ 0) (hv : v ≠ 0)
    (hsz : ¬(sz = 0 ∧ nt = false))
    (hderive : (if sz = 0 then kvs_calc_null_terminated_data_size v
                else sz) ≠ 0)
    (hdup : chainFind (t.bucket.getD (key % t.bucket_count) []) key ≠ none) :
    kvs_store_value (some t) key v mem sz nt aE aD = (some t, .keyNotUnique) ∧
    kvs_store_reference (some t) key v sz nt aE = (some t, .keyNotUnique) := by
  obtain ⟨e, he⟩ := Option.ne_none_iff_exists'.mp hdup
  constructor
  · simp only [kvs_store_value, hk0, hv, hsz, if_false,
      if_neg hk0, if_neg hv, if_neg hsz, if_neg hderive, he]
  · have hderive' : (if sz = 0 ∧ nt = true then
        kvs_calc_null_terminated_data_size v else sz) ≠ 0 := by
      by_cases h0 : sz = 0
      · have hnt : nt = true := by
          cases nt
          · exact absurd ⟨h0, rfl⟩ hsz
          · rfl
        simp only [h0, hnt, and_self, if_true]
        simpa [h0] using hderive
      · simp only [h0, false_and, if_false]
        exact h0
    simp only [kvs_store_reference, if_neg hk0, if_neg hv, if_neg hsz,
      if_neg hderive', he]

end KVS

namespace KVS

/-- C7 exercised at a concrete input: storing key 1 again — by value and by
reference — on the table already holding `entryA` under key 1. -/
theorem C7_witness :
    (1 : Nat) ≠ 0 ∧ (100 : Nat) ≠ 0 ∧ ¬((1 : Nat) = 0 ∧ (false : Bool) = false) ∧
    (if (1 : Nat) = 0 then kvs_calc_null_terminated_data_size 100 else 1) ≠ 0 ∧
    chainFind (tableA.bucket.getD (1 % tableA.bucket_count) []) 1 ≠ none ∧
    kvs_store_value (some tableA) 1 100 memA 1 false true true
      = (some tableA, .keyNotUnique) ∧
    kvs_store_reference (some tableA) 1 100 1 false true
      = (some tableA, .keyNotUnique) :=
  ⟨by decide, by decide, by decide, by decide, by decide,
   C7_duplicate_key_rejected tableA 1 100 memA 1 false true true
     (by decide) (by decide) (by decide) (by decide) (by decide)⟩

end KVS

namespace KVS

/-- C10.  On a well-formed (hence zero-key-free) table, every lookup-side
operation called with key 0 reports `KVS_STATUS_ENTRY_NOT_FOUND` and
returns its absent result (false, NULL or 0) with the table untouched,
while the two store operations and `kvs_remove_entry` are the ones that
reject key 0 with `KVS_STATUS_INVALID_KEY`. -/
theorem C10_zero_key_lookup (t : Table) (hwf : WF t) (copy : Bool)
    (junk : Nat → Nat) (aOk : Bool) (v : Nat) (mem : Nat → Nat) (sz : Nat)
    (nt : Bool) (aE aD : Bool) :
    kvs_entry_exists (some t) 0 = (false, some t, .entryNotFound) ∧
    kvs_get_entry (some t) copy 0 junk aOk
      = (none, none, none, some t, .entryNotFound) ∧
    kvs_value_for_key (some t) 0 junk aOk = (none, some t, .entryNotFound) ∧
    kvs_reference_for_key (some t) 0 = (none, some t, .entryNotFound) ∧
    kvs_size_for_key (some t) 0 = (0, some t, .entryNotFound) ∧
    kvs_data_for_key_is_null_terminated (some t) 0
      = (false, some t, .entryNotFound) ∧
    kvs_reference_count_for_key (some t) 0 = (0, some t, .entryNotFound) ∧
    kvs_release_entry (some t) 0 = (some t, .entryNotFound) ∧
    kvs_store_value (some t) 0 v mem sz nt aE aD = (some t, .invalidKey) ∧
    kvs_store_reference (some t) 0 v sz nt aE = (some t, .invalidKey) ∧
    kvs_remove_entry (some t) 0 = (some t, .invalidKey) := by
  have hz := tableLookup_zero hwf
  refine ⟨?_, ?_, ?_, ?_, ?_, ?_, ?_, ?_, ?_, ?_, ?_⟩
  · simp [kvs_entry_exists, kvs_find_entry, hz]
  · simp [kvs_get_entry, kvs_find_entry, hz]
  · simp [kvs_value_for_key, kvs_find_entry, hz]
  · simp [kvs_reference_for_key, kvs_find_entry, hz]
  · simp [kvs_size_for_key, kvs_find_entry, hz]
  · simp [kvs_data_for_key_is_null_terminated, kvs_find_entry, hz]
  · simp [kvs_reference_count_for_key, kvs_find_entry, hz]
  · simp [kvs_release_entry, kvs_find_entry, hz]
  · simp [kvs_store_value]
  · simp [kvs_store_reference]
  · simp [kvs_remove_entry]

/-- C10 exercised on the concrete well-formed table `tableA`. -/
theorem C10_witness :
    kvs_entry_exists (some tableA) 0 = (false, some tableA, .entryNotFound) ∧
    kvs_get_entry (some tableA) true 0 junkZero true
      = (none, none, none, some tableA, .entryNotFound) ∧
    kvs_value_for_key (some tableA) 0 junkZero true
      = (none, some tableA, .entryNotFound) ∧
    kvs_reference_for_key (some tableA) 0
      = (none, some tableA, .entryNotFound) ∧
    kvs_size_for_key (some tableA) 0 = (0, some tableA, .entryNotFound) ∧
    kvs_data_for_key_is_null_terminated (some tableA) 0
      = (false, some tableA, .entryNotFound) ∧
    kvs_reference_count_for_key (some tableA) 0
      = (0, some tableA, .entryNotFound) ∧
    kvs_release_entry (some tableA) 0 = (some tableA, .entryNotFound) ∧
    kvs_store_value (some tableA) 0 100 memA 1 false true true
      = (some tableA, .invalidKey) ∧
    kvs_store_reference (some tableA) 0 100 1 false true
      = (some tableA, .invalidKey) ∧
    kvs_remove_entry (some tableA) 0 = (some tableA, .invalidKey) :=
  C10_zero_key_lookup tableA WF_tableA true junkZero true 100 memA 1 false
    true true

end KVS

namespace KVS

/-- C9 counterexample.  An allocation failure during by-copy retrieval does
not leave the lookup cache as it was: on `tableA` (cache empty) a failing
`kvs_value_for_key` reports `KVS_STATUS_ALLOCATION_FAILED` but returns a
table whose cache now names entry 1 — not the table exactly as before the
call. -/
theorem C9_counterexample_cache_updated_on_failure :
    (kvs_value_for_key (some tableA) 1 junkZero false).2.2
      = .allocationFailed ∧
    (kvs_value_for_key (some tableA) 1 junkZero false).2.1 ≠ some tableA := by
  decide

/-- C9 as amended: every allocation failure reports
`KVS_STATUS_ALLOCATION_FAILED`, rolls back any partial allocation, and
leaves buckets, chains and `entry_count` exactly as before the call; the
store operations leave the whole table (cache included) untouched, while a
failing by-copy retrieval still carries the cache update made by the
successful lookup that preceded the failed allocation. -/
theorem C9_amended_alloc_rollback :
    (∀ (t : Table) (k v : Nat) (mem : Nat → Nat) (sz : Nat) (nt aE aD : Bool),
      (kvs_store_value (some t) k v mem sz nt aE aD).2 = .allocationFailed →
      (kvs_store_value (some t) k v mem sz nt aE aD).1 = some t) ∧
    (∀ (t : Table) (k v sz : Nat) (nt aE : Bool),
      (kvs_store_reference (some t) k v sz nt aE).2 = .allocationFailed →
      (kvs_store_reference (some t) k v sz nt aE).1 = some t) ∧
    (∀ (t : Table) (k : Nat) (junk : Nat → Nat) (aOk : Bool),
      (kvs_value_for_key (some t) k junk aOk).2.2 = .allocationFailed →
      (kvs_value_for_key (some t) k junk aOk).1 = none ∧
      (kvs_value_for_key (some t) k junk aOk).2.1
        = some { t with last_retrieved_entry := some k }) ∧
    (∀ (t : Table) (copy : Bool) (k : Nat) (junk : Nat → Nat) (aOk : Bool),
      (kvs_get_entry (some t) copy k junk aOk).2.2.2.2 = .allocationFailed →
      (kvs_get_entry (some t) copy k junk aOk).1 = none ∧
      (kvs_get_entry (some t) copy k junk aOk).2.2.2.1
        = some { t with last_retrieved_entry := some k }) := by
  refine ⟨?_, ?_, ?_, ?_⟩
  · intro t k v mem sz nt aE aD
    simp only [kvs_store_value]
    repeat' split
    all_goals intro h
    all_goals first | rfl | simp at h
  · intro t k v sz nt aE
    simp only [kvs_store_reference]
    repeat' split
    all_goals intro h
    all_goals first | rfl | simp at h
  · intro t k junk aOk
    cases hf : tableLookup t k with
    | none =>
      simp only [kvs_value_for_key, kvs_find_entry, hf]
      intro h
      simp at h
    | some e =>
      simp only [kvs_value_for_key, kvs_find_entry, hf, kvs_retrieve_copy]
      repeat' split
      all_goals intro h
      all_goals first | exact ⟨rfl, rfl⟩ | simp at h
  · intro t copy k junk aOk
    cases hf : tableLookup t k with
    | none =>
      simp only [kvs_get_entry, kvs_find_entry, hf]
      intro h
      simp at h
    | some e =>
      by_cases ha : aOk = false
      · simp only [kvs_get_entry, kvs_find_entry, hf, kvs_retrieve_copy, ha,
          eq_self_iff_true, if_true]
        repeat' split
        all_goals intro h
        all_goals first | exact ⟨rfl, rfl⟩ | simp at h
      · simp only [kvs_get_entry, kvs_find_entry, hf, kvs_retrieve_copy,
          if_neg ha]
        repeat' split
        all_goals intro h
        all_goals first | exact ⟨rfl, rfl⟩ | simp at h

/-- C9 amended claim exercised at concrete inputs: a store whose entry
allocation fails on the fresh table, and a by-copy retrieval whose buffer
allocation fails on `tableA`. -/
theorem C9_witness :
    ((kvs_store_value (some tableFresh2) 1 100 memA 1 false false false).2
       = .allocationFailed ∧
     (kvs_store_value (some tableFresh2) 1 100 memA 1 false false false).1
       = some tableFresh2) ∧
    ((kvs_value_for_key (some tableA) 1 junkZero false).2.2
       = .allocationFailed ∧
     (kvs_value_for_key (some tableA) 1 junkZero false).1 = none ∧
     (kvs_value_for_key (some tableA) 1 junkZero false).2.1
       = some { tableA with last_retrieved_entry := some 1 }) :=
  ⟨⟨by decide,
    C9_amended_alloc_rollback.1 tableFresh2 1 100 memA 1 false false false
      (by decide)⟩,
   ⟨by decide,
    C9_amended_alloc_rollback.2.2.1 tableA 1 junkZero false (by decide)⟩⟩

end KVS

namespace KVS

/-- C6.  In every table state reachable through the public operations,
every entry linked into a bucket chain has `ref_count ≥ 1`; and
`kvs_release_entry` on an entry whose count is exactly 1 performs no
decrement — the resulting table differs from the old one only in the lookup
cache (which now names the entry), so the entry stays linked with count 1
and, if live, is still retrievable by `kvs_reference_for_key`. -/
theorem C6_refcount_floor :
    (∀ t : Table, Reachable t → ∀ e ∈ allEntries t, 1 ≤ e.ref_count) ∧
    (∀ (t : Table) (key : Nat) (e : Entry), WF t →
      tableLookup t key = some e → e.ref_count = 1 →
      kvs_release_entry (some t) key
        = (some { t with last_retrieved_entry := some key }, .success) ∧
      (e.marked_for_removal = false →
        (kvs_reference_for_key
            (some { t with last_retrieved_entry := some key }) key).1
          = some e.value ∧
        tableLookup { t with last_retrieved_entry := some key } key
          = some e)) := by
  constructor
  · intro t hr e he
    exact (hr.wf.2.2.2.1 e he).2
  · intro t key e hwf hfind hrc
    have hl : tableLookup { t with last_retrieved_entry := some key } key
        = some e := hfind
    constructor
    · simp only [kvs_release_entry, kvs_find_entry, hfind]
      rw [if_neg (by omega : ¬ e.ref_count > 1)]
    · intro hm
      exact ⟨by simp [kvs_reference_for_key, kvs_find_entry, hl, hm], hl⟩

/-- C6 exercised on the concrete reachable table `tableA`, whose single
entry `entryA` has count 1. -/
theorem C6_witness :
    (1 ≤ entryA.ref_count) ∧
    kvs_release_entry (some tableA) 1
      = (some { tableA with last_retrieved_entry := some 1 }, .success) ∧
    (kvs_reference_for_key
        (some { tableA with last_retrieved_entry := some 1 }) 1).1
      = some entryA.value := by
  have hmem : entryA ∈ allEntries tableA := by decide
  exact ⟨C6_refcount_floor.1 tableA Reachable_tableA entryA hmem,
    (C6_refcount_floor.2 tableA 1 entryA WF_tableA rfl rfl).1,
    ((C6_refcount_floor.2 tableA 1 entryA WF_tableA rfl rfl).2 rfl).1⟩

end KVS

namespace KVS

/-- Unfolding of `kvs_release_entry` on a table whose lookup finds `e`. -/
theorem release_found (t : Table) (key : Nat) (e : Entry)
    (hfind : tableLookup t key = some e) :
    kvs_release_entry (some t) key
      = if e.ref_count > 1 then
          (if e.ref_count - 1 = 1 ∧ e.marked_for_removal = true then
            kvs_remove_entry
              (some (updateEntry { t with last_retrieved_entry := some key } key
                (fun x => { x with ref_count := x.ref_count - 1 }))) key
          else
            (some (updateEntry { t with last_retrieved_entry := some key } key
              (fun x => { x with ref_count := x.ref_count - 1 })), .success))
        else (some { t with last_retrieved_entry := some key }, .success) := by
  simp only [kvs_release_entry, kvs_find_entry, hfind]

/-- Unfolding of `kvs_remove_entry` on a table whose chain walk finds `e`. -/
theorem remove_found (t : Table) (key : Nat) (e : Entry) (hk0 : key ≠ 0)
    (hfind : tableLookup t key = some e) :
    kvs_remove_entry (some t) key
      = if e.ref_count ≤ 1 then
          (some { t with
             last_retrieved_entry :=
               if t.last_retrieved_entry = some key then none
               else t.last_retrieved_entry
             bucket := t.bucket.set (key % t.bucket_count)
               ((t.bucket.getD (key % t.bucket_count) []).eraseP
                 (fun x => x.key == key))
             entry_count := t.entry_count - 1 }, .success)
        else
          (some (updateEntry t key
            (fun x => { x with marked_for_removal := true })), .success) := by
  have hfind2 : chainFind (t.bucket.getD (key % t.bucket_count) []) key
      = some e := hfind
  simp only [kvs_remove_entry, if_neg hk0, hfind2]

/-- C5.  Deferred removal at count 3: `kvs_remove_entry` only marks the
entry, making `kvs_entry_exists` false immediately (pending-removal signal)
while `kvs_size_for_key` still reports the original size; the first
`kvs_release_entry` drops the count to 2, the second drops it to 1 and —
the entry being marked — finalizes the removal: the entry is physically
unlinked, `entry_count` is decremented by one, and `kvs_size_for_key`
then reports 0 with an entry-not-found status. -/
theorem C5_deferred_removal (t : Table) (key : Nat) (e : Entry)
    (hwf : WF t) (hk0 : key ≠ 0) (hfind : tableLookup t key = some e)
    (hrc : e.ref_count = 3) (hm : e.marked_for_removal = false) :
    ∃ t1 t1c t2 t3,
      kvs_remove_entry (some t) key = (some t1, .success) ∧
      kvs_entry_exists (some t1) key
        = (false, some t1c, .entryPendingRemoval) ∧
      (kvs_size_for_key (some t1c) key).1 = e.size ∧
      (kvs_size_for_key (some t1c) key).2.2 = .success ∧
      kvs_release_entry (some t1c) key = (some t2, .success) ∧
      (kvs_reference_count_for_key (some t2) key).1 = 2 ∧
      kvs_release_entry (some t2) key = (some t3, .success) ∧
      (kvs_size_for_key (some t3) key).1 = 0 ∧
      (kvs_size_for_key (some t3) key).2.2 = .entryNotFound ∧
      tableLookup t3 key = none ∧
      t3.entry_count = t.entry_count - 1 ∧
      1 ≤ t.entry_count := by
  obtain ⟨hemem, hekey⟩ := tableLookup_spec hwf.1 hwf.2.1 hfind
  have hcnt1 : 1 ≤ t.entry_count := by
    have hlen : 1 ≤ (allEntries t).length :=
      List.length_pos.mpr (List.ne_nil_of_mem hemem)
    have hc := hwf.2.2.1
    omega
  have hfind' : chainFind (t.bucket.getD (key % t.bucket_count) []) key
      = some e := hfind
  -- step 1: remove marks the entry
  have h1 : kvs_remove_entry (some t) key
      = (some (updateEntry t key
          (fun x => { x with marked_for_removal := true })), .success) := by
    simp only [kvs_remove_entry, if_neg hk0, hfind']
    rw [if_neg (by omega : ¬ e.ref_count ≤ 1)]
  have hwf1 : WF (updateEntry t key
      (fun x => { x with marked_for_removal := true })) :=
    WF_updateEntry hwf (fun x => rfl) (fun x hx hk => (hwf.2.2.2.1 x hx).2)
  have hlook1 : tableLookup (updateEntry t key
        (fun x => { x with marked_for_removal := true })) key
      = some { e with marked_for_removal := true } := by
    rw [tableLookup_updateEntry t key key
      (fun x => { x with marked_for_removal := true }) (fun x => rfl), hfind]
    simp [hekey]
  -- step 2: the entry no longer "exists" but still answers size queries
  have h2 : kvs_entry_exists (some (updateEntry t key
        (fun x => { x with marked_for_removal := true }))) key
      = (false, some { updateEntry t key
            (fun x => { x with marked_for_removal := true }) with
            last_retrieved_entry := some key }, .entryPendingRemoval) := by
    simp [kvs_entry_exists, kvs_find_entry, hlook1]
  have hlook1c : tableLookup { updateEntry t key
        (fun x => { x with marked_for_removal := true }) with
        last_retrieved_entry := some key } key
      = some { e with marked_for_removal := true } := hlook1
  have h3 : kvs_size_for_key (some { updateEntry t key
        (fun x => { x with marked_for_removal := true }) with
        last_retrieved_entry := some key }) key
      = (e.size, some { updateEntry t key
            (fun x => { x with marked_for_removal := true }) with
            last_retrieved_entry := some key }, .success) := by
    simp [kvs_size_for_key, kvs_find_entry, hlook1c]
  -- name the successive states
  set t1 : Table :=
    updateEntry t key (fun x => { x with marked_for_removal := true }) with ht1
  set t1c : Table := { t1 with last_retrieved_entry := some key } with ht1c
  obtain ⟨hemem1, hekey1⟩ := tableLookup_spec hwf1.1 hwf1.2.1 hlook1
  have hwf1c : WF t1c := WF_setCache hwf1 hemem1 hekey1
  -- step 4: first release, count 3 → 2, no finalization
  have hgt1 : ({ e with marked_for_removal := true } : Entry).ref_count > 1 := by
    show e.ref_count > 1
    omega
  have hnofin : ¬(({ e with marked_for_removal := true } : Entry).ref_count - 1 = 1 ∧ ({ e with marked_for_removal := true } : Entry).marked_for_removal = true) := by
    intro hcon
    have hcon1 : e.ref_count - 1 = 1 := hcon.1
    omega
  have h4 : kvs_release_entry (some t1c) key
      = (some (updateEntry { t1c with last_retrieved_entry := some key } key
          (fun x => { x with ref_count := x.ref_count - 1 })), .success) := by
    rw [release_found t1c key { e with marked_for_removal := true } hlook1c,
      if_pos hgt1, if_neg hnofin]
  set t2 : Table :=
    updateEntry { t1c with last_retrieved_entry := some key } key
      (fun x => { x with ref_count := x.ref_count - 1 }) with ht2
  have hwf2 : WF t2 := WF_release hwf1c h4
  have hlook1c2 : tableLookup { t1c with last_retrieved_entry := some key } key
      = some { e with marked_for_removal := true } := hlook1c
  have hlook2 : tableLookup t2 key
      = some { e with ref_count := e.ref_count - 1, marked_for_removal := true } := by
    rw [ht2, tableLookup_updateEntry { t1c with last_retrieved_entry := some key }
      key key (fun x => { x with ref_count := x.ref_count - 1 }) (fun x => rfl),
      hlook1c2]
    simp [hekey]
  have h4b : (kvs_reference_count_for_key (some t2) key).1 = 2 := by
    simp only [kvs_reference_count_for_key, kvs_find_entry, hlook2]
    show e.ref_count - 1 = 2
    omega
  -- step 5: second release, count 2 → 1, finalization removes the entry
  set t2c : Table := { t2 with last_retrieved_entry := some key } with ht2c
  set t2d : Table :=
    updateEntry t2c key (fun x => { x with ref_count := x.ref_count - 1 })
    with ht2d
  obtain ⟨hemem2, hekey2⟩ := tableLookup_spec hwf2.1 hwf2.2.1 hlook2
  have hwf2c : WF t2c := WF_setCache hwf2 hemem2 hekey2
  have hwf2d : WF t2d := by
    rw [ht2d]
    refine WF_updateEntry hwf2c (fun x => rfl) ?_
    intro x hx hk
    have hxe :
        x = { e with ref_count := e.ref_count - 1, marked_for_removal := true } :=
      key_unique hwf2c hx hemem2 (by rw [hk, hekey2])
    have hred : ({ x with ref_count := x.ref_count - 1 } : Entry).ref_count
        = x.ref_count - 1 := rfl
    have hxrc : x.ref_count = e.ref_count - 1 := by rw [hxe]
    omega
  have hlook2c : tableLookup t2c key
      = some { e with ref_count := e.ref_count - 1, marked_for_removal := true } :=
    hlook2
  have hlook2d : tableLookup t2d key
      = some { e with ref_count := e.ref_count - 1 - 1, marked_for_removal := true } := by
    rw [ht2d, tableLookup_updateEntry t2c key key
      (fun x => { x with ref_count := x.ref_count - 1 }) (fun x => rfl),
      hlook2c]
    simp [hekey]
  have hcache2d : t2d.last_retrieved_entry = some key := rfl
  set t3 : Table :=
    { t2d with
        last_retrieved_entry := none
        bucket := t2d.bucket.set (key % t2d.bucket_count)
          ((t2d.bucket.getD (key % t2d.bucket_count) []).eraseP
            (fun x => x.key == key))
        entry_count := t2d.entry_count - 1 } with ht3
  have hgt2 : ({ e with ref_count := e.ref_count - 1, marked_for_removal := true } : Entry).ref_count > 1 := by
    show e.ref_count - 1 > 1
    omega
  have hfin2 : ({ e with ref_count := e.ref_count - 1, marked_for_removal := true } : Entry).ref_count - 1 = 1 ∧ ({ e with ref_count := e.ref_count - 1, marked_for_removal := true } : Entry).marked_for_removal = true := by
    constructor
    · show e.ref_count - 1 - 1 = 1
      omega
    · rfl
  have hle3 : ({ e with ref_count := e.ref_count - 1 - 1, marked_for_removal := true } : Entry).ref_count ≤ 1 := by
    show e.ref_count - 1 - 1 ≤ 1
    omega
  have h5 : kvs_release_entry (some t2) key = (some t3, .success) := by
    rw [release_found t2 key
      { e with ref_count := e.ref_count - 1, marked_for_removal := true } hlook2,
      if_pos hgt2, if_pos hfin2]
    rw [remove_found t2d key
      { e with ref_count := e.ref_count - 1 - 1, marked_for_removal := true }
      hk0 hlook2d, if_pos hle3, if_pos hcache2d]
  -- the entry is gone from the chains of t3
  have hilt2d : key % t2d.bucket_count < t2d.bucket.length := by
    rw [hwf2d.1]
    exact Nat.mod_lt _ hwf2d.2.1
  have hpw2d : (t2d.bucket.getD (key % t2d.bucket_count) []).Pairwise
      (fun a b => a.key ≠ b.key) :=
    hwf2d.2.2.2.2.1 _ (getD_mem_bucket hilt2d)
  have hlook3 : tableLookup t3 key = none := by
    rw [tableLookup]
    have hbc : t3.bucket_count = t2d.bucket_count := rfl
    have hbk : t3.bucket = t2d.bucket.set (key % t2d.bucket_count)
        ((t2d.bucket.getD (key % t2d.bucket_count) []).eraseP
          (fun x => x.key == key)) := rfl
    rw [hbc, hbk, getD_set_self hilt2d]
    exact chainFind_eraseP_of_unique hpw2d
  have h6 : kvs_size_for_key (some t3) key = (0, some t3, .entryNotFound) := by
    simp [kvs_size_for_key, kvs_find_entry, hlook3]
  have hcnt3 : t3.entry_count = t.entry_count - 1 := rfl
  exact ⟨t1, t1c, t2, t3, h1, h2, by rw [h3], by rw [h3], h4, h4b, h5,
    by rw [h6], by rw [h6], hlook3, hcnt3, hcnt1⟩

end KVS

namespace KVS

/-- Entry of reference count 3 under key 1 (as after one store and two
by-reference retrievals). -/
def entryT : Entry :=
  { key := 1, value := .owned [65, 0], size := 1, ref_count := 3,
    null_terminated := false, marked_for_removal := false }

/-- Two-bucket table holding `entryT` alone. -/
def tableT : Table :=
  { last_retrieved_entry := none, entry_count := 1, bucket_count := 2,
    bucket := [[], [entryT]] }

theorem WF_tableT : WF tableT := by
  refine ⟨rfl, by decide, rfl, by decide, by decide, by decide, ?_⟩
  intro ck hck
  cases hck

/-- C5 exercised on the concrete table `tableT` whose entry has count 3. -/
theorem C5_witness :
    (1 : Nat) ≠ 0 ∧ tableLookup tableT 1 = some entryT ∧
    entryT.ref_count = 3 ∧ entryT.marked_for_removal = false ∧
    ∃ t1 t1c t2 t3,
      kvs_remove_entry (some tableT) 1 = (some t1, .success) ∧
      kvs_entry_exists (some t1) 1
        = (false, some t1c, .entryPendingRemoval) ∧
      (kvs_size_for_key (some t1c) 1).1 = entryT.size ∧
      (kvs_size_for_key (some t1c) 1).2.2 = .success ∧
      kvs_release_entry (some t1c) 1 = (some t2, .success) ∧
      (kvs_reference_count_for_key (some t2) 1).1 = 2 ∧
      kvs_release_entry (some t2) 1 = (some t3, .success) ∧
      (kvs_size_for_key (some t3) 1).1 = 0 ∧
      (kvs_size_for_key (some t3) 1).2.2 = .entryNotFound ∧
      tableLookup t3 1 = none ∧
      t3.entry_count = tableT.entry_count - 1 ∧
      1 ≤ tableT.entry_count :=
  ⟨by decide, rfl, rfl, rfl,
   C5_deferred_removal tableT 1 entryT WF_tableT (by decide) rfl rfl rfl⟩

end KVS
